import Mathlib

/-
Shallow embedding of the JPath evaluator (jpath.py).

The tree type `JValue` models the Python objects produced by json.loads:
None, bool, numbers, str, list, dict (string keys, insertion order kept,
keys unique in any dict produced by json.loads; lookup takes the first
occurrence, matching dict semantics on unique-keyed lists).

Python exceptions are modelled by the error type `JErr`.  `Set` mutates in
place; we model the mutable heap by passing around the whole root tree and
a position (list of steps) pointing at the current node, returning the
final state of the root alongside the returned value, so that "no partial
mutation" is a statable property.  The one unmodellable corner is Python
`dict[int] = v` (assigning an integer key into a dict), which cannot occur
in a JSON tree type with string keys; `assignFinal` maps it to a TypeError.
No theorem below exercises that corner.
-/

inductive JValue where
  | null
  | bool (b : Bool)
  | num (n : Int)
  | str (s : String)
  | arr (xs : List JValue)
  | obj (kvs : List (String × JValue))
deriving Repr

inductive JErr where
  | emptyPath
  | missingIterator
  | keyError (k : String)
  | keyErrorInt (n : Nat)
  | indexError
  | typeError
  | speculative (tok : String)
  | corrupt (path tok : String)
  | valueError
deriving Repr, DecidableEq

/-- Python truthiness of a JSON value (`if not json_data`). -/
def truthy : JValue → Bool
  | .null => false
  | .bool b => b
  | .num n => decide (n ≠ 0)
  | .str s => !s.data.isEmpty
  | .arr xs => !xs.isEmpty
  | .obj kvs => !kvs.isEmpty

/-- Character-list prefix test, modelling Python str.startswith. -/
def startsList : List Char → List Char → Bool
  | [], _ => true
  | _ :: _, [] => false
  | p :: ps, c :: cs => p == c && startsList ps cs

def pyStartsWith (s pre : String) : Bool := startsList pre.data s.data

/-- Model of Python str.strip with the delimiter character. -/
def stripChars (cs : List Char) : List Char :=
  (((cs.dropWhile (fun c => c == '/')).reverse.dropWhile (fun c => c == '/'))).reverse

/-- Model of Python str.split(sep) for a one-character separator. -/
def splitChars (sep : Char) : List Char → List (List Char)
  | [] => [[]]
  | c :: cs =>
      match splitChars sep cs with
      | [] => [[]]
      | p :: ps => if c = sep then [] :: p :: ps else (c :: p) :: ps

/-- Tokenizing a path: strip leading and trailing delimiters, then split. -/
def tokenize (q : String) : List String :=
  (splitChars '/' (stripChars q.data)).map String.mk

/-- Numeric value of a digit string. -/
def digitsToNat (ds : List Char) : Nat :=
  ds.foldl (fun acc c => acc * 10 + (c.toNat - '0'.toNat)) 0

/-- Word character for the regex class backslash-w (ASCII). -/
def isWordChar (c : Char) : Bool := c.isAlphanum || c == '_'

/-- Matching the first alternative of the sniffer regex at position 0:
a token beginning with a bracketed nonempty digit run.  Python re tries
this alternative first; the anchor restricts it to the start of the token,
with no end anchor, so trailing characters are allowed. -/
def parseIndexPre (cs : List Char) : Option Nat :=
  match cs with
  | [] => none
  | c :: rest =>
      if c = '[' then
        let ds := rest.takeWhile Char.isDigit
        if ds.isEmpty then none
        else
          match rest.drop ds.length with
          | d :: _ => if d = ']' then some (digitsToNat ds) else none
          | [] => none
      else none

/-- Matching the second alternative of the sniffer regex starting at the
head of the given suffix and reaching the end of the token: bracket, at
sign, a nonempty word-character run, an equals sign, at least one
arbitrary character, and a closing bracket as the final character. -/
def predAt (cs : List Char) : Option (String × String) :=
  match cs with
  | a :: b :: rest =>
      if a = '[' ∧ b = '@' then
        let w := rest.takeWhile isWordChar
        if w.isEmpty then none
        else
          match rest.drop w.length with
          | e :: rest2 =>
              if e = '=' then
                if 2 ≤ rest2.length ∧ rest2.getLast? = some ']' then
                  some (String.mk w, String.mk rest2.dropLast)
                else none
              else none
          | [] => none
      else none
  | _ => none

/-- Leftmost match of the predicate alternative (Python re.search). -/
def predSearch : List Char → Option (String × String)
  | [] => none
  | c :: cs =>
      match predAt (c :: cs) with
      | some r => some r
      | none => predSearch cs

inductive Sniff where
  | index (n : Nat)
  | pred (key value : String)
  | plain
deriving Repr, DecidableEq

/-- Classification of a token by the attribute sniffer regex used in
`_GrabDataByToken`: index prefix first, else leftmost end-anchored
predicate, else no match (plain subscript by the token string). -/
def sniff (token : String) : Sniff :=
  match parseIndexPre token.data with
  | some n => .index n
  | none =>
      match predSearch token.data with
      | some (k, v) => .pred k v
      | none => .plain

/-- First-occurrence lookup in an association list (Python dict read). -/
def lookupKv : List (String × JValue) → String → Option JValue
  | [], _ => none
  | (k, w) :: tl, key => if k = key then some w else lookupKv tl key

/-- Python dict assignment: overwrite the first occurrence in place, or
append a new key at the end. -/
def updateKv : List (String × JValue) → String → JValue → List (String × JValue)
  | [], key, v => [(key, v)]
  | (k, w) :: tl, key, v =>
      if k = key then (k, v) :: tl else (k, w) :: updateKv tl key v

/-- Python subscript json_data[n] with an int subscript. -/
def pyGetIndex (jd : JValue) (n : Nat) : Except JErr JValue :=
  match jd with
  | .arr xs =>
      match xs.get? n with
      | some w => .ok w
      | none => .error .indexError
  | .str s =>
      match s.data.get? n with
      | some c => .ok (.str (String.mk [c]))
      | none => .error .indexError
  | .obj _ => .error (.keyErrorInt n)
  | _ => .error .typeError

/-- Python subscript json_data[token] with a str subscript. -/
def pyGetKeyStr (jd : JValue) (key : String) : Except JErr JValue :=
  match jd with
  | .obj kvs =>
      match lookupKv kvs key with
      | some w => .ok w
      | none => .error (.keyError key)
  | _ => .error .typeError

/-- Python equality data_elem[key] == value against a str value. -/
def pyEqStr (w : JValue) (s : String) : Bool :=
  match w with
  | .str t => t = s
  | _ => false

/-- The predicate loop over the elements of a list: first element whose
entry at the key equals the value; a missing key raises KeyError; a
non-dict element raises TypeError; no match falls through to None. -/
def predScan (key value : String) : List JValue → Except JErr JValue
  | [] => .ok .null
  | e :: es =>
      match e with
      | .obj kvs =>
          match lookupKv kvs key with
          | some w => if pyEqStr w value then .ok (.obj kvs) else predScan key value es
          | none => .error (.keyError key)
      | _ => .error .typeError

/-- The predicate branch of `_GrabDataByToken`: iterate the current node.
Iterating a dict yields its keys (strings, whose str subscript raises
TypeError); iterating a str yields its characters; non-iterables raise
TypeError; an empty iterable falls through to None. -/
def pyGetPred (jd : JValue) (key value : String) : Except JErr JValue :=
  match jd with
  | .arr xs => predScan key value xs
  | .obj kvs =>
      match kvs with
      | [] => .ok .null
      | _ :: _ => .error .typeError
  | .str s =>
      match s.data with
      | [] => .ok .null
      | _ :: _ => .error .typeError
  | _ => .error .typeError

/-- Model of `JPath._GrabDataByToken`. -/
def grabDataByToken (jd : JValue) (token : String) : Except JErr JValue :=
  match sniff token with
  | .index n => pyGetIndex jd n
  | .pred k v => pyGetPred jd k v
  | .plain => pyGetKeyStr jd token

/-- The token-consuming loop of `JPath.Get`.  The first component is the
returned value or the raised exception; the second is the final state of
the evaluator's tree (Get performs no assignment, so the state is simply
threaded through).  At every entry a falsy current node is replaced by the
root (`if not json_data: json_data = self.json_data`). -/
def GetTokens (st : JValue) (jd : JValue) : String → List String → Except JErr JValue × JValue
  | token, rest =>
      let cur := if truthy jd then jd else st
      match grabDataByToken cur token with
      | .error e => (.error e, st)
      | .ok nd =>
          match rest with
          | [] => (.ok nd, st)
          | t :: ts => GetTokens st nd t ts

/-- Model of `JPath.Get` called with jpath_query and an explicit json_data
argument (tokens=None): an empty query string raises JPathError, else the
query is stripped, split and walked.  Python None is `JValue.null`. -/
def GetFrom (root : JValue) (jd : JValue) (q : String) : Except JErr JValue × JValue :=
  if q.data.isEmpty then (.error .emptyPath, root)
  else
    match tokenize q with
    | [] => (.error .emptyPath, root)
    | t :: ts => GetTokens root jd t ts

/-- Model of the public call `Get(jpath_query)` (json_data defaults to
None, hence to the root). -/
def GetTop (root : JValue) (q : String) : Except JErr JValue × JValue :=
  GetFrom root .null q

/-- A step from a container to a child, recording the position of the
current node inside the root tree (the mutable-heap pointer of Set). -/
inductive Step where
  | key (k : String)
  | idx (n : Nat)
deriving Repr, DecidableEq

/-- The subscript computed by Set's classifying regex: an int or a str. -/
inductive PyKey where
  | idx (n : Nat)
  | key (s : String)
deriving Repr, DecidableEq

/-- Classification of a token by Set's re.match against
the alternation of a bracketed digit run and an ASCII alphanumeric run.
re.match anchors at the start only, so a valid prefix suffices and
trailing characters are ignored. -/
def setClassify (token : String) : Option PyKey :=
  match parseIndexPre token.data with
  | some n => some (.idx n)
  | none =>
      match token.data.takeWhile Char.isAlphanum with
      | [] => none
      | w => some (.key (String.mk w))

/-- Replace the first entry with the given key using f, leaving the list
unchanged when the key is absent (used only at positions where a dict
read has already succeeded). -/
def setKvFirst (kvs : List (String × JValue)) (s : String) (f : JValue → JValue) :
    List (String × JValue) :=
  match kvs with
  | [] => []
  | (k, w) :: tl => if k = s then (k, f w) :: tl else (k, w) :: setKvFirst tl s f

/-- Replace the nth element using f, leaving the list unchanged when the
index is out of range. -/
def setArrNth (xs : List JValue) (n : Nat) (f : JValue → JValue) : List JValue :=
  match xs, n with
  | [], _ => []
  | w :: tl, 0 => f w :: tl
  | w :: tl, n + 1 => w :: setArrNth tl n f

/-- The subtree of a tree at a position, when the position is valid. -/
def subtreeAt : JValue → List Step → Option JValue
  | v, [] => some v
  | v, st :: rest =>
      match v, st with
      | .obj kvs, .key s =>
          (match lookupKv kvs s with
           | some w => subtreeAt w rest
           | none => none)
      | .arr xs, .idx n =>
          (match xs.get? n with
           | some w => subtreeAt w rest
           | none => none)
      | _, _ => none

/-- Replace the subtree at a position (the effect, seen from the root, of
an in-place mutation of the node the position points at). -/
def updateAtPos : JValue → List Step → JValue → JValue
  | _, [], x => x
  | v, st :: rest, x =>
      match v, st with
      | .obj kvs, .key s => .obj (setKvFirst kvs s (fun w => updateAtPos w rest x))
      | .arr xs, .idx n => .arr (setArrNth xs n (fun w => updateAtPos w rest x))
      | u, _ => u

/-- The intermediate read json_data[key] of Set's descent, together with
the step recording where the child sits.  A str index read returns a
fresh one-character string; any Set continuing through it can only meet
strings and therefore ends in a TypeError before any assignment, so the
recorded step is never consulted on a success path. -/
def readChild (cur : JValue) : PyKey → Except JErr (JValue × Step)
  | .key s =>
      match cur with
      | .obj kvs =>
          match lookupKv kvs s with
          | some w => .ok (w, .key s)
          | none => .error (.keyError s)
      | _ => .error .typeError
  | .idx n =>
      match cur with
      | .arr xs =>
          match xs.get? n with
          | some w => .ok (w, .idx n)
          | none => .error .indexError
      | .str s =>
          match s.data.get? n with
          | some c => .ok (.str (String.mk [c]), .idx n)
          | none => .error .indexError
      | .obj _ => .error (.keyErrorInt n)
      | _ => .error .typeError

/-- The final assignment json_data[key] = set_value.  Assignment into a
dict by str key overwrites or appends; into a list by a valid index
overwrites, out of range raises IndexError; anything else raises
TypeError (see the file comment for the dict-int-key corner). -/
def assignFinal (cur : JValue) (k : PyKey) (v : JValue) : Except JErr JValue :=
  match k, cur with
  | .key s, .obj kvs => .ok (.obj (updateKv kvs s v))
  | .key _, _ => .error .typeError
  | .idx n, .arr xs =>
      if n < xs.length then .ok (.arr (xs.set n v)) else .error .indexError
  | .idx _, _ => .error .typeError

/-- The token-consuming loop of `JPath.Set`.  root is the evaluator's
tree, jd the current node, pos its position inside root, qs the stripped
query (reported by the corrupt-path error).  The first component is the
Python return value (None on success, falling off the end of the
function) or the raised exception; the second is the final state of the
evaluator's tree.  As in Get, a falsy current node is replaced by the
root, which also resets the position to the root. -/
def SetAux (root jd : JValue) (pos : List Step) (qs : String) (v : JValue) :
    String → List String → Except JErr JValue × JValue
  | token, rest =>
      let cur := if truthy jd then jd else root
      let cpos := if truthy jd then pos else []
      if pyStartsWith token "[@" then (.error (.speculative token), root)
      else
        match setClassify token with
        | none => (.error (.corrupt qs token), root)
        | some k =>
            match rest with
            | [] =>
                match assignFinal cur k v with
                | .ok cur2 => (.ok .null, updateAtPos root cpos cur2)
                | .error e => (.error e, root)
            | t :: ts =>
                match readChild cur k with
                | .ok (child, step) => SetAux root child (cpos ++ [step]) qs v t ts
                | .error e => (.error e, root)

/-- Model of the public call `Set(jpath_query, set_value)`: an empty
query raises JPathError, else the query is stripped, split and walked
starting from the root (json_data defaults to None, which is falsy). -/
def SetTop (root : JValue) (q : String) (v : JValue) : Except JErr JValue × JValue :=
  if q.data.isEmpty then (.error .emptyPath, root)
  else
    match tokenize q with
    | [] => (.error .emptyPath, root)
    | t :: ts => SetAux root .null [] (String.mk (stripChars q.data)) v t ts

/-- Model of Python str.split on the three-character iterator token,
scanning left to right. -/
def splitOnStar : List Char → List (List Char)
  | [] => [[]]
  | '[' :: '*' :: ']' :: rest => [] :: splitOnStar rest
  | c :: rest =>
      match splitOnStar rest with
      | [] => [[]]
      | p :: ps => (c :: p) :: ps

/-- Python iteration `for data_elem in base_data`: a list yields its
elements, a dict its keys, a str its characters; anything else raises
TypeError. -/
def iterElems (base : JValue) : Except JErr (List JValue) :=
  match base with
  | .arr xs => .ok xs
  | .obj kvs => .ok (kvs.map fun kv => .str kv.1)
  | .str s => .ok (s.data.map fun c => .str (String.mk [c]))
  | _ => .error .typeError

/-- The yield loop of IterItems: items yielded before the loop stops,
together with the exception, if any, that aborted it. -/
def iterLoop (root : JValue) (trailing : String) :
    List JValue → List JValue × Option JErr
  | [] => ([], none)
  | e :: es =>
      match (GetFrom root e trailing).1 with
      | .error err => ([], some err)
      | .ok w =>
          match iterLoop root trailing es with
          | (ws, r) => (w :: ws, r)

/-- Model of `JPath.IterItems` with the generator fully consumed: requires
the iterator token, splits around it (a second occurrence makes the
two-name unpacking raise ValueError), resolves the base path from the
root, then yields one trailing-path Get per element. -/
def IterItems (root : JValue) (q : String) :
    Except JErr (List JValue × Option JErr) :=
  match splitOnStar q.data with
  | [_] => .error .missingIterator
  | [b, tr] =>
      match (GetTop root (String.mk b)).1 with
      | .error e => .error e
      | .ok base_data =>
          match iterElems base_data with
          | .error e => .error e
          | .ok es => .ok (iterLoop root (String.mk tr) es)
  | _ => .error .valueError

/-- True when an Except value is a success. -/
def isOkE (r : Except JErr JValue) : Bool :=
  match r with
  | .ok _ => true
  | .error _ => false

/-- True when an Except value is a raised exception. -/
def isErrE (r : Except JErr JValue) : Bool :=
  match r with
  | .ok _ => false
  | .error _ => true

/-- The success value of an Except, defaulting to null. -/
def okD (r : Except JErr JValue) : JValue :=
  match r with
  | .ok w => w
  | .error _ => .null

/-- Modelled from the spec: the fully anchored write-path token pattern
quoted by the spec, a bracketed nonempty digit run spanning the whole
token, or a nonempty ASCII alphanumeric run spanning the whole token.
Compared against the source's unanchored re.match in `setClassify`. -/
def specWriteTokenFull (tok : String) : Bool :=
  (match tok.data with
   | '[' :: rest =>
       let ds := rest.takeWhile Char.isDigit
       !ds.isEmpty && decide (rest.drop ds.length = [']'])
   | _ => false)
  || (!tok.data.isEmpty && tok.data.all Char.isAlphanum)

/-- A plain key-only token: nonempty and wholly ASCII alphanumeric.  Such
a token is classified as a plain dict subscript by Get and as the whole
key by Set. -/
def goodKeyTok (tok : String) : Bool :=
  !tok.data.isEmpty && tok.data.all Char.isAlphanum

/-- Strict key-only resolution: every node met during the descent is a
mapping containing the token as a key, and every intermediate child is
truthy, so the root-substitution of a falsy current node never fires.
The final child may be anything. -/
def strictDescent : JValue → List String → Bool
  | _, [] => false
  | v, tok :: rest =>
      match v with
      | .obj kvs =>
          match lookupKv kvs tok with
          | some w =>
              match rest with
              | [] => true
              | _ :: _ => truthy w && strictDescent w rest
          | none => false
      | _ => false

/-- The pure functional effect of Set along a strict key-only descent:
replace the entry at the final key, descending through the first
occurrence of each intermediate key. -/
def setStrict : JValue → List String → JValue → JValue
  | v, [], _ => v
  | v, tok :: rest, x =>
      match v with
      | .obj kvs =>
          match rest with
          | [] => .obj (updateKv kvs tok x)
          | _ :: _ => .obj (setKvFirst kvs tok (fun w => setStrict w rest x))
      | _ => v

theorem GetTokens_eq (st jd : JValue) (tok : String) (rest : List String) :
    GetTokens st jd tok rest =
      (match grabDataByToken (if truthy jd then jd else st) tok with
       | .error e => (.error e, st)
       | .ok nd =>
           match rest with
           | [] => (.ok nd, st)
           | t :: ts => GetTokens st nd t ts) := by
  conv_lhs => unfold GetTokens

theorem SetAux_eq (root jd : JValue) (pos : List Step) (qs : String) (v : JValue)
    (tok : String) (rest : List String) :
    SetAux root jd pos qs v tok rest =
      (if pyStartsWith tok "[@" then (.error (.speculative tok), root)
       else
         match setClassify tok with
         | none => (.error (.corrupt qs tok), root)
         | some k =>
             match rest with
             | [] =>
                 match assignFinal (if truthy jd then jd else root) k v with
                 | .ok cur2 => (.ok .null, updateAtPos root (if truthy jd then pos else []) cur2)
                 | .error e => (.error e, root)
             | t :: ts =>
                 match readChild (if truthy jd then jd else root) k with
                 | .ok (child, step) =>
                     SetAux root child ((if truthy jd then pos else []) ++ [step]) qs v t ts
                 | .error e => (.error e, root)) := by
  conv_lhs => unfold SetAux

theorem GetTokens_state (rest : List String) : ∀ (st jd : JValue) (tok : String),
    (GetTokens st jd tok rest).2 = st := by
  induction rest with
  | nil =>
      intro st jd tok
      rw [GetTokens_eq]
      cases grabDataByToken (if truthy jd then jd else st) tok <;> rfl
  | cons t ts ih =>
      intro st jd tok
      rw [GetTokens_eq]
      cases grabDataByToken (if truthy jd then jd else st) tok with
      | error e => rfl
      | ok nd => exact ih st nd t

theorem GetTokens_falsy (st jd : JValue) (tok : String) (rest : List String)
    (h : truthy jd = false) : GetTokens st jd tok rest = GetTokens st st tok rest := by
  rw [GetTokens_eq, GetTokens_eq, h]
  rw [if_neg (by exact Bool.false_ne_true), ite_self]

theorem GetTokens_single (st jd : JValue) (tok : String) :
    GetTokens st jd tok [] = (grabDataByToken (if truthy jd then jd else st) tok, st) := by
  rw [GetTokens_eq]
  cases grabDataByToken (if truthy jd then jd else st) tok <;> rfl

/-- Claim C9: Get never mutates the tree: for every path and every
caller-supplied subtree, the tree held by the evaluator is identical
before and after the call, whether Get returns a result or fails. -/
theorem claim_C9_get_never_mutates (t jd : JValue) (q : String) :
    (GetFrom t jd q).2 = t ∧ (GetTop t q).2 = t := by
  have h : ∀ jd' : JValue, (GetFrom t jd' q).2 = t := by
    intro jd'
    unfold GetFrom
    by_cases hq : q.data.isEmpty
    · rw [if_pos hq]
    · rw [if_neg hq]
      cases tokenize q with
      | nil => rfl
      | cons t0 ts => exact GetTokens_state ts t jd' t0
  exact ⟨h jd, h .null⟩

/-- Claim C10: whenever Get is invoked with an explicit current-node argument
that is falsy (null, false, 0, the empty string, the empty sequence, the
empty mapping), it silently substitutes the evaluator's root tree and
resolves the remaining tokens against the root; this covers the top-level
call, Get's internal recursion on tokens, and the per-element
trailing-path lookups of IterItems. -/
theorem claim_C10_falsy_resolves_against_root :
    (truthy .null = false ∧ truthy (.bool false) = false ∧ truthy (.num 0) = false ∧
     truthy (.str "") = false ∧ truthy (.arr []) = false ∧ truthy (.obj []) = false) ∧
    (∀ (st jd : JValue) (tok : String) (rest : List String), truthy jd = false →
        GetTokens st jd tok rest = GetTokens st st tok rest) ∧
    (∀ (t jd : JValue) (q : String), truthy jd = false →
        GetFrom t jd q = GetFrom t t q) ∧
    (∀ (t e : JValue) (tr : String) (es : List JValue), truthy e = false →
        iterLoop t tr (e :: es) = iterLoop t tr (t :: es)) := by
  refine ⟨⟨rfl, rfl, rfl, rfl, rfl, rfl⟩, GetTokens_falsy, ?_, ?_⟩
  · intro t jd q h
    unfold GetFrom
    by_cases hq : q.data.isEmpty
    · simp only [if_pos hq]
    · simp only [if_neg hq]
      cases htk : tokenize q with
      | nil => rfl
      | cons t0 ts => exact GetTokens_falsy t jd t0 ts h
  · intro t e tr es h
    unfold iterLoop
    have : GetFrom t e tr = GetFrom t t tr := by
      unfold GetFrom
      by_cases hq : tr.data.isEmpty
      · simp only [if_pos hq]
      · simp only [if_neg hq]
        cases htk : tokenize tr with
        | nil => rfl
        | cons t0 ts => exact GetTokens_falsy t e t0 ts h
    rw [this]

theorem claim_C10_witness :
    GetFrom (.obj [("a", .num 1)]) (.num 0) "a" =
      GetFrom (.obj [("a", .num 1)]) (.obj [("a", .num 1)]) "a" :=
  claim_C10_falsy_resolves_against_root.2.2.1 (.obj [("a", .num 1)]) (.num 0) "a" rfl

/-- Claim C8: an index token selects the 0-based nth element of an ordered
sequence when the index is in range and fails with IndexError otherwise;
in particular the token against a length-2 sequence fails and against a
length-3 sequence returns the third element. -/
theorem claim_C8_index_token (tok : String) (n : Nat) (xs : List JValue)
    (h : sniff tok = .index n) :
    grabDataByToken (.arr xs) tok =
      (match xs.get? n with
       | some w => .ok w
       | none => .error .indexError) ∧
    (∀ a b : JValue, (GetTop (.arr [a, b]) "[2]").1 = .error .indexError) ∧
    (∀ a b c : JValue, (GetTop (.arr [a, b, c]) "[2]").1 = .ok c) := by
  refine ⟨?_, ?_, ?_⟩
  · unfold grabDataByToken
    rw [h]
    rfl
  · intro a b; rfl
  · intro a b c; rfl

theorem claim_C8_index_token_witness :
    sniff "[2]" = Sniff.index 2 ∧
    grabDataByToken (.arr [JValue.num 10]) "[2]" =
      (match ([JValue.num 10].get? 2) with
       | some w => Except.ok w
       | none => Except.error JErr.indexError) :=
  ⟨rfl, (claim_C8_index_token "[2]" 2 [JValue.num 10] rfl).1⟩

/-- Claim C5 (exhibiting the return-value bug): a successful Set assigns the
value in place at the location addressed by the final token, overwriting
the existing value, but returns None (modelled null) rather than the
documented True success result. -/
theorem claim_C5_set_assigns_but_returns_none :
    SetTop (.obj [("a", .num 1)]) "a" (.num 2) = (.ok .null, .obj [("a", .num 2)]) ∧
    (SetTop (.obj [("a", .num 1)]) "a" (.num 2)).1 ≠ .ok (.bool true) := by
  refine ⟨rfl, ?_⟩
  intro hc
  exact JValue.noConfusion (Except.ok.inj hc)

/-- Claim C7 counterexample: the path consisting of a single delimiter does not
fail with EmptyPath: after stripping it becomes one empty token, which
Get resolves as a mapping key (here succeeding, since the tree has an
empty-string key) and Set rejects as a malformed token. -/
theorem claim_C7_counterexample :
    (GetTop (.obj [("", .num 7)]) "/").1 = .ok (.num 7) ∧
    (GetTop (.obj [("", .num 7)]) "/").1 ≠ .error .emptyPath ∧
    SetTop (.obj [("a", .num 1)]) "/" (.num 0) =
      (.error (.corrupt "" ""), .obj [("a", .num 1)]) ∧
    (SetTop (.obj [("a", .num 1)]) "/" (.num 0)).1 ≠ .error .emptyPath := by
  refine ⟨rfl, ?_, rfl, ?_⟩
  · intro hc
    exact Except.noConfusion hc
  · intro hc
    exact JErr.noConfusion (Except.error.inj hc)

/-- Claim C7 amended: the empty path string fails with EmptyPath in both Get
and Set; a path of delimiters only, such as the single slash, instead
produces one empty token: Get subscripts the current node by the empty
string and Set fails with the corrupt-path error naming the stripped
(empty) path and the empty token. -/
theorem claim_C7_amended (t v : JValue) :
    GetTop t "" = (.error .emptyPath, t) ∧
    SetTop t "" v = (.error .emptyPath, t) ∧
    (GetTop t "/").1 = pyGetKeyStr t "" ∧
    SetTop t "/" v = (.error (.corrupt "" ""), t) := by
  refine ⟨rfl, rfl, ?_, rfl⟩
  have h1 : GetTop t "/" = GetTokens t .null "" [] := rfl
  rw [h1, GetTokens_single]
  rfl

/-- Claim C4 counterexample: a predicate token applied to a sequence of
mappings in which no element matches does not fail with a NoMatch error:
the scan falls off the loop and Get returns None (null) as a success. -/
theorem claim_C4_counterexample :
    sniff "[@a=2]" = Sniff.pred "a" "2" ∧
    (GetTop (.obj [("xs", .arr [.obj [("a", .str "1")]])]) "xs/[@a=2]").1 = .ok .null ∧
    isOkE (GetTop (.obj [("xs", .arr [.obj [("a", .str "1")]])]) "xs/[@a=2]").1 = true := by
  exact ⟨rfl, rfl, rfl⟩

/-- Claim C4 amended: when a predicate token is applied to an ordered sequence
in which every element is a mapping possessing the key but none has a
value string-equal to the sought value, the lookup step returns None
(null) as an ordinary success instead of failing; only an element missing
the key raises (a KeyError), and a NoMatch failure never occurs. -/
theorem claim_C4_amended (key value tok : String) (xs : List JValue)
    (hs : sniff tok = .pred key value)
    (hall : ∀ e ∈ xs, ∃ kvs w, e = JValue.obj kvs ∧ lookupKv kvs key = some w ∧
        pyEqStr w value = false) :
    grabDataByToken (.arr xs) tok = .ok .null := by
  have hscan : predScan key value xs = .ok .null := by
    induction xs with
    | nil => rfl
    | cons e es ih =>
        obtain ⟨kvs, w, he, hlk, hne⟩ := hall e (by simp)
        subst he
        have hrest : predScan key value es = .ok .null :=
          ih (fun e' he' => hall e' (by simp [he']))
        have hstep : predScan key value (JValue.obj kvs :: es) =
            (match lookupKv kvs key with
             | some w => if pyEqStr w value = true then Except.ok (JValue.obj kvs)
                         else predScan key value es
             | none => Except.error (JErr.keyError key)) := rfl
        rw [hstep, hlk]
        simp [hne, hrest]
  unfold grabDataByToken
  rw [hs]
  exact hscan

theorem claim_C4_amended_witness :
    grabDataByToken (.arr [JValue.obj [("a", JValue.str "1")]]) "[@a=2]" = .ok .null :=
  claim_C4_amended "a" "2" "[@a=2]" [JValue.obj [("a", JValue.str "1")]] rfl
    (by
      intro e he
      simp only [List.mem_singleton] at he
      subst he
      exact ⟨[("a", JValue.str "1")], JValue.str "1", rfl, rfl, rfl⟩)

/-- Claim C1 counterexample: the key-only path with token b twice resolves in
the tree mapping b to an empty mapping (the falsy empty mapping makes Get
restart from the root), Set on it succeeds, but Get after Set fails with
a TypeError instead of returning the written value. -/
theorem claim_C1_counterexample :
    goodKeyTok "b" = true ∧
    (GetTop (.obj [("b", .obj [])]) "b/b").1 = .ok (.obj []) ∧
    SetTop (.obj [("b", .obj [])]) "b/b" (.num 1) = (.ok .null, .obj [("b", .num 1)]) ∧
    (GetTop (SetTop (.obj [("b", .obj [])]) "b/b" (.num 1)).2 "b/b").1 = .error .typeError ∧
    (GetTop (SetTop (.obj [("b", .obj [])]) "b/b" (.num 1)).2 "b/b").1 ≠ .ok (.num 1) := by
  refine ⟨rfl, rfl, rfl, rfl, ?_⟩
  intro hc
  exact Except.noConfusion hc

/-- Claim C2 counterexample: with the iterator token present and the base path
resolving to a sequence of length 2, but an empty trailing path,
IterItems does not yield the two elements themselves: the first
per-element Get raises the empty-path error and nothing is yielded. -/
theorem claim_C2_counterexample :
    (GetTop (.obj [("items", .arr [.obj [("value", .num 1)], .obj [("value", .num 2)]])])
        "items/").1
      = .ok (.arr [.obj [("value", .num 1)], .obj [("value", .num 2)]]) ∧
    IterItems (.obj [("items", .arr [.obj [("value", .num 1)], .obj [("value", .num 2)]])])
        "items/[*]"
      = .ok ([], some .emptyPath) := by
  exact ⟨rfl, rfl⟩

/-- Claim C3 counterexample: a Set path containing a predicate token does not
always fail with the speculative-query error: a key failure earlier in
the descent raises KeyError first (the tree is still unmodified). -/
theorem claim_C3_counterexample :
    ((tokenize "zzz/[@a=b]").any fun s => pyStartsWith s "[@") = true ∧
    SetTop (.obj [("x", .num 1)]) "zzz/[@a=b]" (.num 5) =
      (.error (.keyError "zzz"), .obj [("x", .num 1)]) ∧
    (SetTop (.obj [("x", .num 1)]) "zzz/[@a=b]" (.num 5)).1 ≠
      .error (.speculative "[@a=b]") := by
  refine ⟨rfl, rfl, ?_⟩
  intro hc
  exact JErr.noConfusion (Except.error.inj hc)

theorem SetAux_first_speculative (root jd : JValue) (pos : List Step) (qs : String)
    (v : JValue) (tok : String) (rest : List String)
    (h : pyStartsWith tok "[@" = true) :
    SetAux root jd pos qs v tok rest = (.error (.speculative tok), root) := by
  rw [SetAux_eq, if_pos h]

theorem SetAux_corrupt (root jd : JValue) (pos : List Step) (qs : String) (v : JValue)
    (tok : String) (rest : List String)
    (h1 : pyStartsWith tok "[@" = false) (h2 : setClassify tok = none) :
    SetAux root jd pos qs v tok rest = (.error (.corrupt qs tok), root) := by
  rw [SetAux_eq, if_neg (by rw [h1]; exact Bool.false_ne_true), h2]

theorem SetAux_nil_classified (root jd : JValue) (pos : List Step) (qs : String) (v : JValue)
    (tok : String) (k : PyKey)
    (h1 : pyStartsWith tok "[@" = false) (h2 : setClassify tok = some k) :
    SetAux root jd pos qs v tok [] =
      (match assignFinal (if truthy jd then jd else root) k v with
       | .ok cur2 => (.ok .null, updateAtPos root (if truthy jd then pos else []) cur2)
       | .error e => (.error e, root)) := by
  rw [SetAux_eq, if_neg (by rw [h1]; exact Bool.false_ne_true), h2]

theorem SetAux_cons_classified (root jd : JValue) (pos : List Step) (qs : String) (v : JValue)
    (tok : String) (k : PyKey) (t : String) (ts : List String)
    (h1 : pyStartsWith tok "[@" = false) (h2 : setClassify tok = some k) :
    SetAux root jd pos qs v tok (t :: ts) =
      (match readChild (if truthy jd then jd else root) k with
       | .ok (child, step) =>
           SetAux root child ((if truthy jd then pos else []) ++ [step]) qs v t ts
       | .error e => (.error e, root)) := by
  rw [SetAux_eq, if_neg (by rw [h1]; exact Bool.false_ne_true), h2]

theorem SetAux_fail_unchanged (rest : List String) :
    ∀ (root jd : JValue) (pos : List Step) (qs : String) (v : JValue) (tok : String),
      isErrE (SetAux root jd pos qs v tok rest).1 = true →
      (SetAux root jd pos qs v tok rest).2 = root := by
  induction rest with
  | nil =>
      intro root jd pos qs v tok h
      by_cases hst : pyStartsWith tok "[@"
      · rw [SetAux_first_speculative root jd pos qs v tok [] hst]
      · rw [Bool.not_eq_true] at hst
        cases hcl : setClassify tok with
        | none => rw [SetAux_corrupt root jd pos qs v tok [] hst hcl]
        | some k =>
            rw [SetAux_nil_classified root jd pos qs v tok k hst hcl] at h ⊢
            cases haf : assignFinal (if truthy jd then jd else root) k v with
            | ok cur2 =>
                rw [haf] at h
                exact Bool.noConfusion h
            | error e => rfl
  | cons t ts ih =>
      intro root jd pos qs v tok h
      by_cases hst : pyStartsWith tok "[@"
      · rw [SetAux_first_speculative root jd pos qs v tok (t :: ts) hst]
      · rw [Bool.not_eq_true] at hst
        cases hcl : setClassify tok with
        | none => rw [SetAux_corrupt root jd pos qs v tok (t :: ts) hst hcl]
        | some k =>
            rw [SetAux_cons_classified root jd pos qs v tok k t ts hst hcl] at h ⊢
            cases hrc : readChild (if truthy jd then jd else root) k with
            | ok pair =>
                rw [hrc] at h
                obtain ⟨child, step⟩ := pair
                exact ih root child ((if truthy jd then pos else []) ++ [step]) qs v t h
            | error e => rfl

theorem SetAux_pred_fails (rest : List String) :
    ∀ (root jd : JValue) (pos : List Step) (qs : String) (v : JValue) (tok : String),
      ((tok :: rest).any fun s => pyStartsWith s "[@") = true →
      isErrE (SetAux root jd pos qs v tok rest).1 = true ∧
      (SetAux root jd pos qs v tok rest).2 = root := by
  induction rest with
  | nil =>
      intro root jd pos qs v tok h
      have hst : pyStartsWith tok "[@" = true := by simpa using h
      rw [SetAux_first_speculative root jd pos qs v tok [] hst]
      exact ⟨rfl, rfl⟩
  | cons t ts ih =>
      intro root jd pos qs v tok h
      by_cases hst : pyStartsWith tok "[@"
      · rw [SetAux_first_speculative root jd pos qs v tok (t :: ts) hst]
        exact ⟨rfl, rfl⟩
      · rw [Bool.not_eq_true] at hst
        simp only [List.any_cons] at h
        rw [hst, Bool.false_or] at h
        cases hcl : setClassify tok with
        | none =>
            rw [SetAux_corrupt root jd pos qs v tok (t :: ts) hst hcl]
            exact ⟨rfl, rfl⟩
        | some k =>
            rw [SetAux_cons_classified root jd pos qs v tok k t ts hst hcl]
            cases hrc : readChild (if truthy jd then jd else root) k with
            | ok pair =>
                obtain ⟨child, step⟩ := pair
                exact ih root child ((if truthy jd then pos else []) ++ [step]) qs v t h
            | error e => exact ⟨rfl, rfl⟩

theorem tokenize_of_empty (q : String) (hq : q.data.isEmpty = true) : tokenize q = [""] := by
  unfold tokenize
  rw [List.isEmpty_iff.mp hq]
  rfl

/-- Claim C3 amended: a Set path containing a predicate token never succeeds
and never modifies the tree; the failure is the speculative-query error
whenever the descent reaches the predicate token (in particular when the
predicate is the first token), but an earlier step can fail first with
its own lookup error; and, more generally, every Set failure leaves the
tree unmodified, because mutation occurs only at the final token. -/
theorem claim_C3_predicate_set_fails (t v : JValue) (q : String)
    (h : ((tokenize q).any fun s => pyStartsWith s "[@") = true) :
    (isErrE (SetTop t q v).1 = true ∧ (SetTop t q v).2 = t) ∧
    (∀ tok rest, tokenize q = tok :: rest → pyStartsWith tok "[@" = true →
        (SetTop t q v).1 = .error (.speculative tok)) ∧
    (∀ (q' : String) (v' : JValue), isErrE (SetTop t q' v').1 = true →
        (SetTop t q' v').2 = t) := by
  refine ⟨?_, ?_, ?_⟩
  · by_cases hq : q.data.isEmpty
    · rw [tokenize_of_empty q hq] at h
      exact absurd h (by decide)
    · unfold SetTop
      simp only [if_neg hq]
      cases htk : tokenize q with
      | nil => rw [htk] at h; exact absurd h (by decide)
      | cons tok0 rest0 =>
          rw [htk] at h
          exact SetAux_pred_fails rest0 t .null [] (String.mk (stripChars q.data)) v tok0 h
  · intro tok rest heq hst
    by_cases hq : q.data.isEmpty
    · rw [tokenize_of_empty q hq] at heq
      injection heq with h1 _
      subst h1
      exact absurd hst (by decide)
    · unfold SetTop
      simp only [if_neg hq]
      rw [heq]
      exact congrArg Prod.fst
        (SetAux_first_speculative t .null [] (String.mk (stripChars q.data)) v tok rest hst)
  · intro q' v' hfail
    unfold SetTop at hfail ⊢
    by_cases hq' : q'.data.isEmpty
    · simp only [if_pos hq']
    · simp only [if_neg hq'] at hfail ⊢
      cases htk : tokenize q' with
      | nil => rfl
      | cons a bs =>
          rw [htk] at hfail
          exact SetAux_fail_unchanged bs t .null [] (String.mk (stripChars q'.data)) v' a hfail

theorem claim_C3_witness :
    isErrE (SetTop (.obj [("x", .num 1)]) "[@a=b]/x" (.num 5)).1 = true ∧
    (SetTop (.obj [("x", .num 1)]) "[@a=b]/x" (.num 5)).2 = .obj [("x", .num 1)] :=
  (claim_C3_predicate_set_fails (.obj [("x", .num 1)]) (.num 5) "[@a=b]/x" (by decide)).1

/-- Claim C6 counterexample: the token with a trailing exclamation mark fails
the anchored write-token pattern quoted by the spec and is not a
predicate token, yet Set accepts it (its alphanumeric prefix is used as
the key) and succeeds instead of failing with a malformed-token error. -/
theorem claim_C6_counterexample :
    specWriteTokenFull "a!" = false ∧
    pyStartsWith "a!" "[@" = false ∧
    SetTop (.obj [("a", .num 1)]) "a!" (.num 2) = (.ok .null, .obj [("a", .num 2)]) ∧
    isErrE (SetTop (.obj [("a", .num 1)]) "a!" (.num 2)).1 = false := by
  exact ⟨rfl, rfl, rfl, rfl⟩

/-- Claim C6 amended: a token reached by Set's descent (intermediate or final)
that does not start with the predicate opener fails with the
corrupt-path error, which names the offending token and the stripped
query string, exactly when the token has no prefix matched by the
unanchored write-token regex (a bracketed digit run or a nonempty ASCII
alphanumeric run); a token with such a prefix followed by extra
characters is accepted and the extra characters are silently ignored. -/
theorem claim_C6_malformed_token (root jd v : JValue) (pos : List Step) (qs tok : String)
    (rest : List String)
    (h1 : pyStartsWith tok "[@" = false)
    (h2 : setClassify tok = none) :
    SetAux root jd pos qs v tok rest = (.error (.corrupt qs tok), root) :=
  SetAux_corrupt root jd pos qs v tok rest h1 h2

theorem claim_C6_witness :
    SetAux (.obj []) .null [] "!x" (.num 0) "!x" [] =
      (.error (.corrupt "!x" "!x"), .obj []) :=
  claim_C6_malformed_token (.obj []) .null (.num 0) [] "!x" "!x" [] rfl rfl

theorem iterLoop_all_ok (t : JValue) (tr : String) (xs : List JValue)
    (h : ∀ e ∈ xs, isOkE (GetFrom t e tr).1 = true) :
    iterLoop t tr xs = (xs.map (fun e => okD (GetFrom t e tr).1), none) := by
  induction xs with
  | nil => rfl
  | cons e es ih =>
      have he : isOkE (GetFrom t e tr).1 = true := h e (by simp)
      have hrest := ih (fun e' he' => h e' (by simp [he']))
      unfold iterLoop
      cases hg : (GetFrom t e tr).1 with
      | error err =>
          rw [hg] at he
          exact Bool.noConfusion he
      | ok w =>
          rw [hrest]
          simp [okD, hg]

/-- Claim C2 amended: with the iterator token present, the base path resolving
to an ordered sequence, and a non-empty trailing path whose per-element
lookup succeeds on every element, IterItems yields exactly one item per
element of the base sequence, in original order, each being the result
of Get of the trailing path applied to that element; with an empty
trailing path, however, the first per-element lookup raises the
empty-path error, so no items are yielded at all. -/
theorem claim_C2_iteritems (t : JValue) (q : String) (b tr : List Char) (xs : List JValue)
    (hsplit : splitOnStar q.data = [b, tr])
    (hbase : (GetTop t (String.mk b)).1 = .ok (.arr xs)) :
    (tr ≠ [] → (∀ e ∈ xs, isOkE (GetFrom t e (String.mk tr)).1 = true) →
      IterItems t q = .ok (xs.map (fun e => okD (GetFrom t e (String.mk tr)).1), none) ∧
      (xs.map (fun e => okD (GetFrom t e (String.mk tr)).1)).length = xs.length) ∧
    (tr = [] → ∀ e es, xs = e :: es → IterItems t q = .ok ([], some .emptyPath)) := by
  have hit : IterItems t q = .ok (iterLoop t (String.mk tr) xs) := by
    unfold IterItems
    rw [hsplit]
    dsimp only
    rw [hbase]
    rfl
  constructor
  · intro _ hok
    rw [hit, iterLoop_all_ok t (String.mk tr) xs hok]
    exact ⟨rfl, by simp⟩
  · intro htr e es hxs
    subst hxs
    subst htr
    rw [hit]
    rfl

theorem claim_C2_witness :
    IterItems (.obj [("items", .arr [.obj [("value", .num 1)], .obj [("value", .num 2)]])])
        "items/[*]/value" =
      .ok ([JValue.num 1, JValue.num 2], none) :=
  (((claim_C2_iteritems
      (.obj [("items", .arr [.obj [("value", .num 1)], .obj [("value", .num 2)]])])
      "items/[*]/value" ("items/".data) ("/value".data)
      [.obj [("value", .num 1)], .obj [("value", .num 2)]] rfl rfl).1
      (by decide) (by decide)).1 : _)

theorem takeWhile_all_eq (p : Char → Bool) (l : List Char) (h : l.all p = true) :
    l.takeWhile p = l := by
  induction l with
  | nil => rfl
  | cons c cs ih =>
      rw [List.all_cons, Bool.and_eq_true] at h
      rw [List.takeWhile_cons, if_pos h.1, ih h.2]

theorem parseIndexPre_of_alnum (cs : List Char) (h : cs.all Char.isAlphanum = true) :
    parseIndexPre cs = none := by
  cases cs with
  | nil => rfl
  | cons c rest =>
      rw [List.all_cons, Bool.and_eq_true] at h
      have hne : ¬(c = '[') := fun hc => absurd (hc ▸ h.1) (by decide)
      simp only [parseIndexPre]
      rw [if_neg hne]

theorem predAt_head_alnum (c : Char) (cs : List Char) (h : c.isAlphanum = true) :
    predAt (c :: cs) = none := by
  cases cs with
  | nil => rfl
  | cons b rest =>
      have hne : ¬(c = '[' ∧ b = '@') := fun hab => absurd (hab.1 ▸ h) (by decide)
      simp only [predAt]
      rw [if_neg hne]

theorem predSearch_of_alnum (cs : List Char) (h : cs.all Char.isAlphanum = true) :
    predSearch cs = none := by
  induction cs with
  | nil => rfl
  | cons c rest ih =>
      rw [List.all_cons, Bool.and_eq_true] at h
      unfold predSearch
      rw [predAt_head_alnum c rest h.1]
      exact ih h.2

theorem sniff_of_goodKey (tok : String) (h : goodKeyTok tok = true) : sniff tok = .plain := by
  unfold goodKeyTok at h
  rw [Bool.and_eq_true] at h
  unfold sniff
  rw [parseIndexPre_of_alnum tok.data h.2, predSearch_of_alnum tok.data h.2]

theorem setClassify_of_goodKey (tok : String) (h : goodKeyTok tok = true) :
    setClassify tok = some (.key tok) := by
  unfold goodKeyTok at h
  rw [Bool.and_eq_true] at h
  unfold setClassify
  rw [parseIndexPre_of_alnum tok.data h.2, takeWhile_all_eq Char.isAlphanum tok.data h.2]
  cases hd : tok.data with
  | nil => rw [hd] at h; exact absurd h.1 (by decide)
  | cons c cs =>
      show some (PyKey.key (String.mk (c :: cs))) = some (PyKey.key tok)
      rw [← hd]

theorem startsWith_of_goodKey (tok : String) (h : goodKeyTok tok = true) :
    pyStartsWith tok "[@" = false := by
  unfold goodKeyTok at h
  rw [Bool.and_eq_true] at h
  obtain ⟨h1, h2⟩ := h
  unfold pyStartsWith
  cases hd : tok.data with
  | nil => rw [hd] at h1; exact absurd h1 (by decide)
  | cons c cs =>
      rw [hd] at h2
      rw [List.all_cons, Bool.and_eq_true] at h2
      obtain ⟨hc, _⟩ := h2
      have hne : ('[' : Char) ≠ c := fun he => absurd (he.symm ▸ hc) (by decide)
      show startsList ['[', '@'] (c :: cs) = false
      unfold startsList
      cases hbc : (('[' : Char) == c) with
      | false => rw [Bool.false_and]
      | true => exact absurd (eq_of_beq hbc) hne

theorem truthy_obj_of_lookup (kvs : List (String × JValue)) (s : String) (w : JValue)
    (h : lookupKv kvs s = some w) : truthy (.obj kvs) = true := by
  cases kvs with
  | nil => exact Option.noConfusion h
  | cons p tl => rfl

theorem lookupKv_updateKv_self (kvs : List (String × JValue)) (s : String) (v : JValue) :
    lookupKv (updateKv kvs s v) s = some v := by
  induction kvs with
  | nil => simp [updateKv, lookupKv]
  | cons p tl ih =>
      obtain ⟨k, w⟩ := p
      unfold updateKv
      by_cases hk : k = s
      · rw [if_pos hk]
        unfold lookupKv
        rw [if_pos hk]
      · rw [if_neg hk]
        unfold lookupKv
        rw [if_neg hk]
        exact ih

theorem lookupKv_setKvFirst_self (kvs : List (String × JValue)) (s : String)
    (f : JValue → JValue) (w : JValue) (h : lookupKv kvs s = some w) :
    lookupKv (setKvFirst kvs s f) s = some (f w) := by
  induction kvs with
  | nil => exact Option.noConfusion h
  | cons p tl ih =>
      obtain ⟨k, u⟩ := p
      unfold lookupKv at h
      unfold setKvFirst
      by_cases hk : k = s
      · rw [if_pos hk] at h ⊢
        injection h with hu
        subst hu
        unfold lookupKv
        rw [if_pos hk]
      · rw [if_neg hk] at h ⊢
        unfold lookupKv
        rw [if_neg hk]
        exact ih h

theorem setKvFirst_congr (kvs : List (String × JValue)) (s : String)
    (f g : JValue → JValue) (w : JValue) (h : lookupKv kvs s = some w)
    (hfg : f w = g w) : setKvFirst kvs s f = setKvFirst kvs s g := by
  induction kvs with
  | nil => rfl
  | cons p tl ih =>
      obtain ⟨k, u⟩ := p
      unfold lookupKv at h
      unfold setKvFirst
      by_cases hk : k = s
      · rw [if_pos hk] at h
        injection h with hu
        subst hu
        simp only [if_pos hk]
        rw [hfg]
      · rw [if_neg hk] at h
        simp only [if_neg hk]
        rw [ih h]

theorem setArrNth_congr (xs : List JValue) : ∀ (n : Nat) (f g : JValue → JValue) (w : JValue),
    xs.get? n = some w → f w = g w → setArrNth xs n f = setArrNth xs n g := by
  induction xs with
  | nil => intro n f g w h _; exact Option.noConfusion h
  | cons x tl ih =>
      intro n f g w h hfg
      cases n with
      | zero =>
          injection h with hx
          subst hx
          unfold setArrNth
          rw [hfg]
      | succ m =>
          unfold setArrNth
          rw [ih m f g w h hfg]

theorem subtreeAt_append (p1 : List Step) : ∀ (root : JValue) (p2 : List Step),
    subtreeAt root (p1 ++ p2) = (subtreeAt root p1).bind (fun c => subtreeAt c p2) := by
  induction p1 with
  | nil => intro root p2; rfl
  | cons s p1 ih =>
      intro root p2
      cases s with
      | key k =>
          cases root with
          | obj kvs =>
              have hL : subtreeAt (JValue.obj kvs) ((Step.key k :: p1) ++ p2) =
                  (match lookupKv kvs k with
                   | some w => subtreeAt w (p1 ++ p2)
                   | none => none) := rfl
              have hR : subtreeAt (JValue.obj kvs) (Step.key k :: p1) =
                  (match lookupKv kvs k with
                   | some w => subtreeAt w p1
                   | none => none) := rfl
              rw [hL, hR]
              cases hlk : lookupKv kvs k with
              | some w => exact ih w p2
              | none => rfl
          | null => rfl
          | bool b => rfl
          | num n => rfl
          | str s2 => rfl
          | arr xs => rfl
      | idx n =>
          cases root with
          | arr xs =>
              have hL : subtreeAt (JValue.arr xs) ((Step.idx n :: p1) ++ p2) =
                  (match xs.get? n with
                   | some w => subtreeAt w (p1 ++ p2)
                   | none => none) := rfl
              have hR : subtreeAt (JValue.arr xs) (Step.idx n :: p1) =
                  (match xs.get? n with
                   | some w => subtreeAt w p1
                   | none => none) := rfl
              rw [hL, hR]
              cases hg : xs.get? n with
              | some w => exact ih w p2
              | none => rfl
          | null => rfl
          | bool b => rfl
          | num n2 => rfl
          | str s2 => rfl
          | obj kvs => rfl

theorem updateAtPos_append (pos : List Step) : ∀ (root c x : JValue) (step : Step),
    subtreeAt root pos = some c →
    updateAtPos root (pos ++ [step]) x = updateAtPos root pos (updateAtPos c [step] x) := by
  induction pos with
  | nil =>
      intro root c x step h
      injection h with hc
      subst hc
      rfl
  | cons s ps ih =>
      intro root c x step h
      cases s with
      | key k =>
          cases root with
          | obj kvs =>
              have h2 : (match lookupKv kvs k with
                         | some w => subtreeAt w ps
                         | none => none) = some c := h
              cases hlk : lookupKv kvs k with
              | none => rw [hlk] at h2; exact Option.noConfusion h2
              | some w =>
                  rw [hlk] at h2
                  show JValue.obj (setKvFirst kvs k (fun y => updateAtPos y (ps ++ [step]) x)) =
                       JValue.obj (setKvFirst kvs k (fun y => updateAtPos y ps (updateAtPos c [step] x)))
                  congr 1
                  exact setKvFirst_congr kvs k _ _ w hlk (ih w c x step h2)
          | null => exact Option.noConfusion h
          | bool b => exact Option.noConfusion h
          | num n => exact Option.noConfusion h
          | str s2 => exact Option.noConfusion h
          | arr xs => exact Option.noConfusion h
      | idx n =>
          cases root with
          | arr xs =>
              have h2 : (match xs.get? n with
                         | some w => subtreeAt w ps
                         | none => none) = some c := h
              cases hg : xs.get? n with
              | none => rw [hg] at h2; exact Option.noConfusion h2
              | some w =>
                  rw [hg] at h2
                  show JValue.arr (setArrNth xs n (fun y => updateAtPos y (ps ++ [step]) x)) =
                       JValue.arr (setArrNth xs n (fun y => updateAtPos y ps (updateAtPos c [step] x)))
                  congr 1
                  exact setArrNth_congr xs n _ _ w hg (ih w c x step h2)
          | null => exact Option.noConfusion h
          | bool b => exact Option.noConfusion h
          | num n2 => exact Option.noConfusion h
          | str s2 => exact Option.noConfusion h
          | obj kvs => exact Option.noConfusion h

theorem strictDescent_inv (v : JValue) (tok : String) (rest : List String)
    (h : strictDescent v (tok :: rest) = true) :
    ∃ kvs w, v = .obj kvs ∧ lookupKv kvs tok = some w ∧
      (rest = [] ∨ (truthy w = true ∧ strictDescent w rest = true)) := by
  cases v with
  | obj kvs =>
      cases rest with
      | nil =>
          have h2 : (match lookupKv kvs tok with
                     | some _ => true
                     | none => false) = true := h
          cases hlk : lookupKv kvs tok with
          | none => rw [hlk] at h2; exact Bool.noConfusion h2
          | some w => exact ⟨kvs, w, rfl, hlk, Or.inl rfl⟩
      | cons t ts =>
          have h2 : (match lookupKv kvs tok with
                     | some w => truthy w && strictDescent w (t :: ts)
                     | none => false) = true := h
          cases hlk : lookupKv kvs tok with
          | none => rw [hlk] at h2; exact Bool.noConfusion h2
          | some w =>
              rw [hlk] at h2
              have h3 : (truthy w && strictDescent w (t :: ts)) = true := h2
              rw [Bool.and_eq_true] at h3
              exact ⟨kvs, w, rfl, hlk, Or.inr h3⟩
  | null => exact Bool.noConfusion h
  | bool b => exact Bool.noConfusion h
  | num n => exact Bool.noConfusion h
  | str s => exact Bool.noConfusion h
  | arr xs => exact Bool.noConfusion h

theorem SetAux_strict (rest : List String) :
    ∀ (root jd u : JValue) (pos p : List Step) (qs : String) (v : JValue) (tok : String),
      (if truthy jd then jd else root) = u →
      (if truthy jd then pos else []) = p →
      ((tok :: rest).all goodKeyTok = true) →
      strictDescent u (tok :: rest) = true →
      subtreeAt root p = some u →
      SetAux root jd pos qs v tok rest =
        (.ok .null, updateAtPos root p (setStrict u (tok :: rest) v)) := by
  induction rest with
  | nil =>
      intro root jd u pos p qs v tok hU hP hall hsd hsub
      rw [List.all_cons, Bool.and_eq_true] at hall
      obtain ⟨hgood, _⟩ := hall
      obtain ⟨kvs, w, hu, hlk, _⟩ := strictDescent_inv u tok [] hsd
      rw [SetAux_nil_classified root jd pos qs v tok (.key tok)
            (startsWith_of_goodKey tok hgood) (setClassify_of_goodKey tok hgood)]
      rw [hU, hP, hu]
      rfl
  | cons t ts ih =>
      intro root jd u pos p qs v tok hU hP hall hsd hsub
      rw [List.all_cons, Bool.and_eq_true] at hall
      obtain ⟨hgood, hall'⟩ := hall
      obtain ⟨kvs, w, hu, hlk, hor⟩ := strictDescent_inv u tok (t :: ts) hsd
      rcases hor with hbad | ⟨htw, hsd'⟩
      · exact absurd hbad (by simp)
      have hsub' : subtreeAt root (p ++ [Step.key tok]) = some w := by
        rw [subtreeAt_append p root [Step.key tok], hsub]
        show subtreeAt u [Step.key tok] = some w
        rw [hu]
        show (match lookupKv kvs tok with
              | some y => subtreeAt y []
              | none => none) = some w
        rw [hlk]
        rfl
      have hstep := ih root w w (p ++ [Step.key tok]) (p ++ [Step.key tok]) qs v t
        (by rw [htw]; rfl) (by rw [htw]; rfl) hall' hsd' hsub'
      have hupd : updateAtPos root (p ++ [Step.key tok]) (setStrict w (t :: ts) v) =
          updateAtPos root p (setStrict u (tok :: t :: ts) v) := by
        rw [updateAtPos_append p root u (setStrict w (t :: ts) v) (Step.key tok) hsub]
        congr 1
        rw [hu]
        show JValue.obj
            (setKvFirst kvs tok (fun y => updateAtPos y [] (setStrict w (t :: ts) v))) =
          JValue.obj (setKvFirst kvs tok (fun y => setStrict y (t :: ts) v))
        congr 1
        exact setKvFirst_congr kvs tok _ _ w hlk rfl
      have hrc : readChild u (.key tok) = .ok (w, .key tok) := by
        rw [hu]
        show (match lookupKv kvs tok with
              | some y => Except.ok (y, Step.key tok)
              | none => Except.error (JErr.keyError tok)) = Except.ok (w, Step.key tok)
        rw [hlk]
      rw [SetAux_cons_classified root jd pos qs v tok (.key tok) t ts
            (startsWith_of_goodKey tok hgood) (setClassify_of_goodKey tok hgood)]
      rw [hU, hP, hrc, ← hupd]
      exact hstep

theorem GetTokens_setStrict (rest : List String) :
    ∀ (R c v : JValue) (tok : String),
      ((tok :: rest).all goodKeyTok = true) →
      strictDescent c (tok :: rest) = true →
      GetTokens R (setStrict c (tok :: rest) v) tok rest = (.ok v, R) := by
  induction rest with
  | nil =>
      intro R c v tok hall hsd
      rw [List.all_cons, Bool.and_eq_true] at hall
      obtain ⟨hgood, _⟩ := hall
      obtain ⟨kvs, w, hc, hlk, _⟩ := strictDescent_inv c tok [] hsd
      subst hc
      have hss : setStrict (JValue.obj kvs) [tok] v = .obj (updateKv kvs tok v) := rfl
      rw [hss, GetTokens_single,
          if_pos (truthy_obj_of_lookup (updateKv kvs tok v) tok v
            (lookupKv_updateKv_self kvs tok v))]
      have hgrab : grabDataByToken (JValue.obj (updateKv kvs tok v)) tok = .ok v := by
        unfold grabDataByToken
        rw [sniff_of_goodKey tok hgood]
        show (match lookupKv (updateKv kvs tok v) tok with
              | some y => Except.ok y
              | none => Except.error (JErr.keyError tok)) = Except.ok v
        rw [lookupKv_updateKv_self kvs tok v]
      rw [hgrab]
  | cons t ts ih =>
      intro R c v tok hall hsd
      rw [List.all_cons, Bool.and_eq_true] at hall
      obtain ⟨hgood, hall'⟩ := hall
      obtain ⟨kvs, w, hc, hlk, hor⟩ := strictDescent_inv c tok (t :: ts) hsd
      rcases hor with hbad | ⟨htw, hsd'⟩
      · exact absurd hbad (by simp)
      subst hc
      have hss : setStrict (JValue.obj kvs) (tok :: t :: ts) v =
          .obj (setKvFirst kvs tok (fun y => setStrict y (t :: ts) v)) := rfl
      have hlk2 : lookupKv (setKvFirst kvs tok (fun y => setStrict y (t :: ts) v)) tok =
          some (setStrict w (t :: ts) v) :=
        lookupKv_setKvFirst_self kvs tok _ w hlk
      rw [hss, GetTokens_eq,
          if_pos (truthy_obj_of_lookup _ tok (setStrict w (t :: ts) v) hlk2)]
      have hgrab : grabDataByToken
          (JValue.obj (setKvFirst kvs tok (fun y => setStrict y (t :: ts) v))) tok =
          .ok (setStrict w (t :: ts) v) := by
        unfold grabDataByToken
        rw [sniff_of_goodKey tok hgood]
        show (match lookupKv (setKvFirst kvs tok (fun y => setStrict y (t :: ts) v)) tok with
              | some y => Except.ok y
              | none => Except.error (JErr.keyError tok)) =
          Except.ok (setStrict w (t :: ts) v)
        rw [hlk2]
      rw [hgrab]
      exact ih R w v t hall' hsd'

/-- Claim C1 amended: for a key-only path (every token nonempty and ASCII
alphanumeric) whose strict resolution in the tree passes only through
mappings containing the keys, with every intermediate child truthy (so
the falsy-node root substitution never fires), Set on the tree succeeds
and a subsequent Get of the same path on the resulting tree returns the
written value.  (On paths whose resolution meets a falsy intermediate
node the round trip can fail, as the counterexample shows.) -/
theorem claim_C1_roundtrip (t v : JValue) (q : String) (tok : String) (rest : List String)
    (htok : tokenize q = tok :: rest)
    (hkeys : (tok :: rest).all goodKeyTok = true)
    (hres : strictDescent t (tok :: rest) = true) :
    SetTop t q v = (.ok .null, setStrict t (tok :: rest) v) ∧
    (GetTop (SetTop t q v).2 q).1 = .ok v := by
  have hq : q.data.isEmpty = false := by
    by_cases hq0 : q.data.isEmpty
    · rw [tokenize_of_empty q hq0] at htok
      injection htok with h1 _
      rw [List.all_cons, Bool.and_eq_true] at hkeys
      rw [← h1] at hkeys
      exact absurd hkeys.1 (by decide)
    · exact eq_false_of_ne_true hq0
  have hset : SetTop t q v = SetAux t .null [] (String.mk (stripChars q.data)) v tok rest := by
    unfold SetTop
    simp only [hq, Bool.false_eq_true, if_false]
    rw [htok]
  have hmain := SetAux_strict rest t .null t [] [] (String.mk (stripChars q.data)) v tok
    rfl rfl hkeys hres rfl
  constructor
  · rw [hset, hmain]
    rfl
  · rw [hset, hmain]
    show (GetTop (setStrict t (tok :: rest) v) q).1 = Except.ok v
    unfold GetTop GetFrom
    simp only [hq, Bool.false_eq_true, if_false]
    rw [htok]
    show (GetTokens (setStrict t (tok :: rest) v) JValue.null tok rest).1 = Except.ok v
    rw [GetTokens_falsy (setStrict t (tok :: rest) v) .null tok rest rfl]
    rw [GetTokens_setStrict rest (setStrict t (tok :: rest) v) t v tok hkeys hres]

theorem claim_C1_witness :
    SetTop (.obj [("a", .obj [("b", .num 3)])]) "a/b" (.num 9) =
      (.ok .null, setStrict (.obj [("a", .obj [("b", .num 3)])]) ["a", "b"] (.num 9)) ∧
    (GetTop (SetTop (.obj [("a", .obj [("b", .num 3)])]) "a/b" (.num 9)).2 "a/b").1 =
      .ok (.num 9) :=
  claim_C1_roundtrip (.obj [("a", .obj [("b", .num 3)])]) (.num 9) "a/b" "a" ["b"]
    rfl (by decide) (by decide)
